import Mathlib

/-!
Verification of the entity-extractor relationship pipeline.

This file gives a shallow embedding, in Lean 4, of the parts of the
`entityextractor` package that the checked properties talk about:

* the Tier-1 exact-key relationship deduplication and the knowledge-graph
  completion loop of `entityextractor/core/api.py` (`process_entities`),
* the endpoint-type filters of
  `entityextractor/core/relationship_inference.py`
  (`infer_entity_relationships`) and its JSON response parser
  (`extract_json_relationships`),
* the LLM-assisted Tier-2 deduplication of
  `entityextractor/core/deduplication_utils.py`
  (`deduplicate_relationships_llm`),
* the per-entity linking ladder of `entityextractor/core/linker.py`
  (`link_entities`) and the Wikipedia service functions
  `get_wikipedia_extract` and `get_wikipedia_details` of
  `entityextractor/services/wikipedia_service.py`,
* the legacy-output citation span computation of `process_entities`.

External collaborators (the OpenAI chat service, the MediaWiki endpoints,
Wikidata, DBpedia) are modelled as oracles: explicit function parameters
giving each call's outcome.  Python dictionaries are modelled as
insertion-ordered association lists, matching CPython's documented dict
semantics (first insertion fixes the position of a key; updating a key in
place keeps its position).  Python strings are modelled as `String` where
only equality matters and as `List Char` where indexing/slicing matters.

Helper functions from `entityextractor.utils` (`text_utils`,
`wiki_url_utils`) and `entityextractor.config.settings` are not part of
the provided sources; where they are needed they are modelled from the
spec and marked as such.
-/

namespace EntityExtractor

/-- Relationship record ("triple").  The pipeline code accesses the keys
`subject`, `predicate`, `object`, `inferred`, `subject_type`,
`object_type`, `subject_inferred`, `object_inferred` of the Python dict;
they are modelled as record fields (the dicts produced by
`infer_entity_relationships` always carry them). -/
structure Rel where
  subject : String
  predicate : String
  obj : String
  inferred : String
  subject_type : String := ""
  object_type : String := ""
  subject_inferred : String := ""
  object_inferred : String := ""
deriving DecidableEq, Repr

/-- Identity key of a triple, `(subject, predicate, object)`. -/
def Rel.key (r : Rel) : String × String × String :=
  (r.subject, r.predicate, r.obj)

/-- Lookup in an insertion-ordered association list (Python `dict[k]` /
`k in dict`): the first binding of the key, if any. -/
def alist.lookup {K V : Type} [DecidableEq K] (k : K) :
    List (K × V) → Option V
  | [] => none
  | (k', v) :: rest => if k' = k then some v else alist.lookup k rest

/-- Insertion-ordered dict write (`d[k] = v`): update the first binding in
place, or append a new binding at the end. -/
def alist.insert {K V : Type} [DecidableEq K] (k : K) (v : V) :
    List (K × V) → List (K × V)
  | [] => [(k, v)]
  | (k', v') :: rest =>
    if k' = k then (k', v) :: rest else (k', v') :: alist.insert k v rest

/-- One step of the Tier-1 exact-key deduplication of `process_entities`
(api.py lines 76-84): on a key collision the stored record is replaced
only when the stored record's `inferred` equals the string `"implizit"`
and the incoming record's `inferred` equals `"explizit"`. -/
def tier1_step (m : List ((String × String × String) × Rel)) (rel : Rel) :
    List ((String × String × String) × Rel) :=
  let k := rel.key
  match alist.lookup k m with
  | some existing =>
    if existing.inferred = "implizit" ∧ rel.inferred = "explizit" then
      alist.insert k rel m
    else
      m
  | none => alist.insert k rel m

/-- Tier-1 exact-key deduplication of the chunking path of
`process_entities` (api.py lines 75-85): fold all records into `rel_map`
and read the values back in insertion order. -/
def tier1_dedup (rels : List Rel) : List Rel :=
  (rels.foldl tier1_step []).map Prod.snd

/-- Merge step of the knowledge-graph-completion loop (api.py lines
112-115): a round's record is added only when its key is not already
bound; an existing binding is never replaced. -/
def kgc_insert_if_new (m : List ((String × String × String) × Rel))
    (rel : Rel) : List ((String × String × String) × Rel) :=
  match alist.lookup rel.key m with
  | some _ => m
  | none => alist.insert rel.key rel m

/-- Knowledge-graph-completion loop of `process_entities` (api.py lines
98-116).  `infer` is the oracle for `infer_entity_relationships`: given
the 1-based round index and the current accumulated relationship list it
returns that round's new candidate triples.  Returns the final
accumulated map together with the number of extractor invocations. -/
def kgc_loop (infer : Nat → List Rel → List Rel) :
    Nat → Nat → List ((String × String × String) × Rel) → Nat →
    List ((String × String × String) × Rel) × Nat
  | 0, _, m, calls => (m, calls)
  | n + 1, idx, m, calls =>
    let newRels := infer idx (m.map Prod.snd)
    kgc_loop infer n (idx + 1) (newRels.foldl kgc_insert_if_new m) (calls + 1)

/-- Entry point of the completion loop: `rounds` iterations starting from
the deduplicated relationship map, counting extractor calls from zero. -/
def kgc_run (infer : Nat → List Rel → List Rel) (rounds : Nat)
    (init : List ((String × String × String) × Rel)) :
    List ((String × String × String) × Rel) × Nat :=
  kgc_loop infer rounds 1 init 0

/-- Raw candidate triple as parsed from a service response: a JSON object
that may or may not carry each of the expected keys
(`rel.get("subject")` etc. in the source). -/
structure RawRel where
  subject : Option String
  predicate : Option String
  obj : Option String
  inferred : Option String := none
deriving DecidableEq, Repr

/-- Type map construction of `infer_entity_relationships`
(relationship_inference.py lines 73-112): entities contribute a
`name -> type` binding only when both name and type are non-empty. -/
def build_entity_type_map (entities : List (String × String)) :
    List (String × String) :=
  (entities.filter fun e => e.1 ≠ "" ∧ e.2 ≠ "").foldl
    (fun m e => alist.insert e.1 e.2 m) []

/-- KGC branch of `infer_entity_relationships` (relationship_inference.py
lines 164-175): keep a parsed triple when its key is not among the
existing keys and all three core fields are present; tag it `implicit`
and back-fill the endpoint types from the type map, defaulting to the
empty string.  The branch performs no emptiness check on the back-filled
types. -/
def kgc_branch_filter (typeMap : List (String × String))
    (existing : List Rel) (raw : List RawRel) : List Rel :=
  let existingKeys := existing.map Rel.key
  raw.foldl
    (fun acc rel =>
      match rel.subject, rel.predicate, rel.obj with
      | some s, some p, some o =>
        if (s, p, o) ∈ existingKeys then acc
        else
          acc ++ [{ subject := s, predicate := p, obj := o,
                    inferred := "implicit",
                    subject_type := (alist.lookup s typeMap).getD "",
                    object_type := (alist.lookup o typeMap).getD "" }]
      | _, _, _ => acc)
    []

/-- Explicit-pass filter of `infer_entity_relationships`
(relationship_inference.py lines 316-327): keep a parsed triple when all
three core fields are present, tag it (mode-dependent), back-fill types
and endpoint provenance, and drop it when either back-filled type is the
empty string. -/
def valid_relationships_filter (mode : String)
    (typeMap inferredMap : List (String × String)) (raw : List RawRel) :
    List Rel :=
  raw.foldl
    (fun acc rel =>
      match rel.subject, rel.predicate, rel.obj with
      | some s, some p, some o =>
        let inferredStatus :=
          if mode = "generate" ∨ mode = "compendium" then
            rel.inferred.getD "explicit"
          else "explicit"
        let st := (alist.lookup s typeMap).getD ""
        let ot := (alist.lookup o typeMap).getD ""
        if st ≠ "" ∧ ot ≠ "" then
          acc ++ [{ subject := s, predicate := p, obj := o,
                    inferred := inferredStatus,
                    subject_type := st, object_type := ot,
                    subject_inferred := (alist.lookup s inferredMap).getD "explicit",
                    object_inferred := (alist.lookup o inferredMap).getD "explicit" }]
        else acc
      | _, _, _ => acc)
    []

/-! ### Tier-2 LLM deduplication (`deduplication_utils.py`) -/

/-- One object of the cleaned JSON array returned by the deduplication
service: a predicate together with its provenance tag.  The source reads
exactly these two keys when mapping cleaned entries back to originals
(`deduplicate_relationships_llm`, line 72). -/
structure CleanedRel where
  predicate : String
  inferred : String
deriving DecidableEq, Repr

/-- Add one relationship to the `(subject, object)` grouping
(`grouped[key].append(rel)` over a `defaultdict(list)`): append to the
first group with a matching key, or open a new group at the end. -/
def add_to_group (r : Rel) :
    List ((String × String) × List Rel) → List ((String × String) × List Rel)
  | [] => [((r.subject, r.obj), [r])]
  | (k, g) :: rest =>
    if k = (r.subject, r.obj) then (k, g ++ [r]) :: rest
    else (k, g) :: add_to_group r rest

/-- Grouping pass of `deduplicate_relationships_llm` (lines 30-33). -/
def group_by_pair_aux (acc : List ((String × String) × List Rel)) :
    List Rel → List ((String × String) × List Rel)
  | [] => acc
  | r :: rest => group_by_pair_aux (add_to_group r acc) rest

/-- Relationships grouped by `(subject, object)` in order of first
occurrence. -/
def group_by_pair (rels : List Rel) : List ((String × String) × List Rel) :=
  group_by_pair_aux [] rels

/-- Per-group processing of `deduplicate_relationships_llm` (lines
35-80), iterated over the groups in order.  `llm` is the oracle for the
chat-completion call followed by `extract_json_relationships`: `none`
models an exception raised by the service call (handled by the `except`
branch, which passes the whole group through), `some cleaned` the parsed
response.  A singleton group is forwarded without any service call.
Returns the deduplicated list and the number of service calls. -/
def dedup_groups (llm : String → String → Option (List CleanedRel)) :
    List ((String × String) × List Rel) → List Rel × Nat
  | [] => ([], 0)
  | ((s, o), g) :: rest =>
    let tail := dedup_groups llm rest
    match g with
    | [r] => (r :: tail.1, tail.2)
    | _ =>
      match llm s o with
      | none => (g ++ tail.1, tail.2 + 1)
      | some cleaned =>
        (cleaned.map (fun c =>
          match g.find? (fun r =>
              r.predicate = c.predicate ∧ r.inferred = c.inferred) with
          | some r => r
          | none => { subject := s, obj := o, predicate := c.predicate,
                      inferred := c.inferred }) ++ tail.1,
         tail.2 + 1)

/-- Model of `deduplicate_relationships_llm` (deduplication_utils.py).
`hasKey` models the availability of the API key (lines 20-26: without a
key the input list is returned unchanged); an empty input yields an
empty result (line 18).  The result pairs the deduplicated list with the
number of chat-completion calls made. -/
def deduplicate_relationships_llm
    (llm : String → String → Option (List CleanedRel)) (hasKey : Bool)
    (rels : List Rel) : List Rel × Nat :=
  if rels.isEmpty then ([], 0)
  else if hasKey then dedup_groups llm (group_by_pair rels)
  else (rels, 0)

/-! ### Legacy-output citation span (`process_entities`, api.py lines 172-190)

Python strings are modelled as `List Char`; Python indices and slices
are code-point based, matching list positions. -/

/-- Scanning helper for Python `str.find`: the least position `≥ i` at
which `needle` occurs in the remaining haystack. -/
def py_find_aux (needle : List Char) : Nat → List Char → Option Nat
  | i, hay =>
    if needle.isPrefixOf hay then some i
    else
      match hay with
      | [] => none
      | _ :: t => py_find_aux needle (i + 1) t

/-- Python `hay.find(needle)`: first occurrence position, or `-1`. -/
def py_find (hay needle : List Char) : Int :=
  match py_find_aux needle 0 hay with
  | some i => (i : Int)
  | none => -1

/-- Citation span computation of the extraction-mode legacy output
(api.py lines 173-178): `citation` is the entity's citation field, with
the whole input text as the default; `citation_start` is
`input_text.find(citation)` unless the citation IS the input text (then
`0`); `citation_end` is `citation_start + len(citation)` when the find
succeeded and `len(input_text)` otherwise. -/
def legacy_citation_span (inputText : List Char)
    (citationField : Option (List Char)) : Int × Int :=
  let citation := citationField.getD inputText
  let citationStart : Int :=
    if citation ≠ inputText then py_find inputText citation else 0
  let citationEnd : Int :=
    if citationStart ≠ -1 then citationStart + citation.length
    else (inputText.length : Int)
  (citationStart, citationEnd)

/-- Python slice `text[a:b]` for natural bounds. -/
def py_slice (text : List Char) (a b : Nat) : List Char :=
  (text.take b).drop a

/-! ### JSON response parsing (`extract_json_relationships`)

The source calls `json.loads`.  Its semantics is embedded as a
recursive-descent JSON parser over `List Char`.  Two simplifications
that no checked property depends on: escape sequences inside strings
keep the escaped character verbatim, and a number token is a maximal run
of number characters starting with a digit or `-` (the full grammar
restrictions on numbers are not enforced). -/

/-- JSON value. -/
inductive Jval where
  | jnull
  | jbool (b : Bool)
  | jnum (raw : String)
  | jstr (s : String)
  | jarr (elems : List Jval)
  | jobj (fields : List (String × Jval))
deriving Repr

/-- JSON whitespace skip. -/
def skip_ws (s : List Char) : List Char :=
  s.dropWhile (fun c => c == ' ' || c == '\t' || c == '\n' || c == '\r')

/-- Characters that may continue a number token. -/
def is_num_char (c : Char) : Bool :=
  c.isDigit || c == '-' || c == '+' || c == '.' || c == 'e' || c == 'E'

/-- Parse the remainder of a JSON string literal (after the opening
quote), up to the closing quote; a backslash keeps the following
character verbatim. -/
def parse_jstring_aux (acc : List Char) : List Char → Option (List Char × List Char)
  | [] => none
  | c :: rest =>
    if c = '"' then some (acc.reverse, rest)
    else if c = '\\' then
      match rest with
      | [] => none
      | e :: rest2 => parse_jstring_aux (e :: acc) rest2
    else parse_jstring_aux (c :: acc) rest
termination_by l => l.length

mutual

/-- Parse one JSON value, returning it with the unconsumed rest. -/
def parse_val : Nat → List Char → Option (Jval × List Char)
  | 0, _ => none
  | fuel + 1, s =>
    match skip_ws s with
    | [] => none
    | c :: rest =>
      if c = 'n' then
        if List.isPrefixOf ['u', 'l', 'l'] rest then
          some (.jnull, rest.drop 3)
        else none
      else if c = 't' then
        if List.isPrefixOf ['r', 'u', 'e'] rest then
          some (.jbool true, rest.drop 3)
        else none
      else if c = 'f' then
        if List.isPrefixOf ['a', 'l', 's', 'e'] rest then
          some (.jbool false, rest.drop 4)
        else none
      else if c = '"' then
        match parse_jstring_aux [] rest with
        | some (cs, r) => some (.jstr (String.mk cs), r)
        | none => none
      else if c = '[' then
        match skip_ws rest with
        | ']' :: r2 => some (.jarr [], r2)
        | r1 =>
          match parse_elems fuel r1 with
          | some (xs, r2) => some (.jarr xs, r2)
          | none => none
      else if c = '{' then
        match skip_ws rest with
        | '}' :: r2 => some (.jobj [], r2)
        | r1 =>
          match parse_fields fuel r1 with
          | some (fs, r2) => some (.jobj fs, r2)
          | none => none
      else if c = '-' ∨ c.isDigit then
        some (.jnum (String.mk (c :: rest.takeWhile is_num_char)),
              rest.dropWhile is_num_char)
      else none

/-- Parse the comma-separated elements of a non-empty JSON array, up to
and including the closing bracket. -/
def parse_elems : Nat → List Char → Option (List Jval × List Char)
  | 0, _ => none
  | fuel + 1, s =>
    match parse_val fuel s with
    | none => none
    | some (v, r) =>
      match skip_ws r with
      | ',' :: r2 =>
        match parse_elems fuel r2 with
        | some (xs, r3) => some (v :: xs, r3)
        | none => none
      | ']' :: r2 => some ([v], r2)
      | _ => none

/-- Parse the members of a non-empty JSON object, up to and including
the closing brace. -/
def parse_fields : Nat → List Char → Option (List (String × Jval) × List Char)
  | 0, _ => none
  | fuel + 1, s =>
    match skip_ws s with
    | '"' :: rest =>
      match parse_jstring_aux [] rest with
      | none => none
      | some (k, r) =>
        match skip_ws r with
        | ':' :: r2 =>
          match parse_val fuel r2 with
          | none => none
          | some (v, r3) =>
            match skip_ws r3 with
            | ',' :: r4 =>
              match parse_fields fuel r4 with
              | some (fs, r5) => some ((String.mk k, v) :: fs, r5)
              | none => none
            | '}' :: r4 => some ([(String.mk k, v)], r4)
            | _ => none
        | _ => none
    | _ => none

end

/-- Model of `json.loads`: parse one value and require only whitespace
to remain. -/
def py_json_loads (s : List Char) : Option Jval :=
  match parse_val (2 * s.length + 2) s with
  | some (v, rest) => if skip_ws rest = [] then some v else none
  | none => none

/-- Python `s.find(c)` for a single character. -/
def py_find_char (s : List Char) (c : Char) : Int :=
  py_find s [c]

/-- Python `s.rfind(c)` for a single character: highest index, or -1. -/
def py_rfind_char (s : List Char) (c : Char) : Int :=
  match py_find_aux [c] 0 s.reverse with
  | some i => (s.length : Int) - 1 - i
  | none => -1

/-- Model of `extract_json_relationships`
(relationship_inference.py lines 442-455): take the substring from the
first `[` to the last `]` and parse it; when no such substring exists,
parse the whole response; a parse failure raises, is caught, and yields
an empty list. -/
def extract_json_relationships (raw : List Char) : Jval :=
  let jsonStart := py_find_char raw '['
  let jsonEnd := py_rfind_char raw ']' + 1
  if 0 ≤ jsonStart ∧ jsonStart < jsonEnd then
    match py_json_loads (py_slice raw jsonStart.toNat jsonEnd.toNat) with
    | some v => v
    | none => .jarr []
  else
    match py_json_loads raw with
    | some v => v
    | none => .jarr []

/-- Modelled from the spec: "extract the first well-formed JSON array
found via bracket-matching, not strict parsing from position 0" — the
first position holding a `[` from which a complete JSON array parses. -/
def first_wellformed_array : List Char → Option Jval
  | [] => none
  | c :: rest =>
    if c = '[' then
      match parse_val (2 * (c :: rest).length + 2) (c :: rest) with
      | some (Jval.jarr xs, _) => some (.jarr xs)
      | _ => first_wellformed_array rest
    else first_wellformed_array rest

/-! ### Wikipedia service (`wikipedia_service.py`)

HTTP traffic is modelled by oracles; each model additionally returns the
ordered list of service calls it performed, so that ordering/gating
properties are statable.  `urllib.parse.unquote` and
`sanitize_wikipedia_url` (the latter from `entityextractor.utils`, not
among the provided sources) are modelled as the identity; no checked
property depends on their effect. -/

/-- Python `str.split(sep)` scan (non-empty separator), fuelled by the
input length: on a separator occurrence emit the accumulated piece and
restart after it. -/
def py_split_on_aux (sep : List Char) : Nat → List Char → List Char →
    List (List Char)
  | 0, acc, _ => [acc.reverse]
  | fuel + 1, acc, s =>
    match s with
    | [] => [acc.reverse]
    | c :: rest =>
      if sep.isPrefixOf (c :: rest) then
        acc.reverse :: py_split_on_aux sep fuel [] ((c :: rest).drop sep.length)
      else py_split_on_aux sep fuel (c :: acc) rest

/-- Python `s.split(sep)` for a non-empty separator. -/
def py_split_on (s sep : List Char) : List (List Char) :=
  py_split_on_aux sep (s.length + 1) [] s

/-- Title extraction used throughout the service (`url.split("/wiki/")`;
`None`-like failure when the separator is absent, else the second piece
up to the first `#`). -/
def wiki_title (url : String) : Option String :=
  match py_split_on url.toList ['/', 'w', 'i', 'k', 'i', '/'] with
  | _ :: second :: _ =>
    some (String.mk ((py_split_on second ['#']).headD second))
  | _ => none

/-- Outcome of one MediaWiki extract query: a transport error (raised
and handled by an `except` branch), a response without a non-empty
extract, or a non-empty extract. -/
inductive ApiRes where
  | err
  | notFound
  | found (text : String)
deriving DecidableEq, Repr

/-- Service calls performed by `get_wikipedia_extract`. -/
inductive WCall where
  | apiFetch (title : String)
  | searchCall (query : String)
  | redirectCall (url : String)
  | scrapeCall (url : String)
deriving DecidableEq, Repr

/-- Oracle for `get_wikipedia_extract`: the extract query keyed by
title, the opensearch fallback (`fallback_wikipedia_url`, which catches
its own errors and returns an optional URL), redirect resolution
(`follow_wikipedia_redirect`, which never raises and returns a final
URL), and the scraping branch's outcome (`none` covers both "no
paragraphs found" and a caught transport error). -/
structure ExtractOracle where
  api : String → ApiRes
  search : String → Option String
  redirect : String → String
  scrape : String → Option String

/-- Opensearch-fallback section of `get_wikipedia_extract`
(wikipedia_service.py lines 302-326): run `fallback_wikipedia_url` and,
when it returns a different, parsable URL, retry the extract once
against it; a transport error during the retry is caught and falls
through, like a missing extract.  Returns the section's outcome and its
trace beyond the search call itself. -/
def wp_fb_stage (ora : ExtractOracle) (url title : String) :
    Option String × List WCall :=
  match ora.search title with
  | some fb =>
    if fb ≠ url then
      match wiki_title fb with
      | some fbTitle =>
        match ora.api fbTitle with
        | .found e => (some e, [.apiFetch fbTitle])
        | _ => (none, [.apiFetch fbTitle])
      | none => (none, [])
    else (none, [])
  | none => (none, [])

/-- Redirect/soft-redirect section of `get_wikipedia_extract`
(wikipedia_service.py lines 327-352): resolve the working URL via
`follow_wikipedia_redirect` and, when the final URL differs and parses,
retry the extract once against it; errors are caught and fall
through. -/
def wp_sr_stage (ora : ExtractOracle) (url : String) :
    Option String × List WCall :=
  if ora.redirect url ≠ url then
    match wiki_title (ora.redirect url) with
    | some srTitle =>
      match ora.api srTitle with
      | .found e => (some e, [WCall.redirectCall url, .apiFetch srTitle])
      | _ => (none, [WCall.redirectCall url, .apiFetch srTitle])
    | none => (none, [WCall.redirectCall url])
  else (none, [WCall.redirectCall url])

/-- Model of `get_wikipedia_extract` (wikipedia_service.py lines
243-396) returning the extract and the ordered trace of service calls.
Flow: parse the title; query the extract API (a transport error returns
immediately via the outer `except`, a found extract returns); on a
missing extract run the opensearch-fallback section, then the
redirect section, then scraping — each section only if the previous
yielded nothing. -/
def get_wikipedia_extract (ora : ExtractOracle) (url : String) :
    Option String × List WCall :=
  match wiki_title url with
  | none => (none, [])
  | some title =>
    match ora.api title with
    | .err => (none, [.apiFetch title])
    | .found e => (some e, [.apiFetch title])
    | .notFound =>
      let t0 := [WCall.apiFetch title, WCall.searchCall title]
      match wp_fb_stage ora url title with
      | (some e, trFb) => (some e, t0 ++ trFb)
      | (none, trFb) =>
        match wp_sr_stage ora url with
        | (some e, trSr) => (some e, t0 ++ trFb ++ trSr)
        | (none, trSr) =>
          (ora.scrape url, t0 ++ trFb ++ trSr ++ [WCall.scrapeCall url])

/-- The opensearch fallback attempt of `get_wikipedia_extract` yields
nothing usable: no URL, the same URL, an unparsable URL, or a page
without an extract (a transport error during the retry counts as
nothing, matching the `except` branch). -/
def fb_attempt_fails (ora : ExtractOracle) (url title : String) : Prop :=
  match ora.search title with
  | none => True
  | some fb =>
    fb = url ∨
    match wiki_title fb with
    | none => True
    | some fbt => ∀ e, ora.api fbt ≠ .found e

/-- The redirect-resolution attempt of `get_wikipedia_extract` yields
nothing usable: the final URL is unchanged, unparsable, or its page has
no extract. -/
def sr_attempt_fails (ora : ExtractOracle) (url : String) : Prop :=
  ora.redirect url = url ∨
  match wiki_title (ora.redirect url) with
  | none => True
  | some srt => ∀ e, ora.api srt ≠ .found e

/-- Value stored in the details mapping built by
`get_wikipedia_details`. -/
inductive DetailVal where
  | info (rows : List (String × String))
  | links (urls : List String)
  | img (url : String)
deriving DecidableEq, Repr

/-- Oracle for the three retrieval sections of `get_wikipedia_details`
(the outcome each section would compute for a page, were it reached). -/
structure DetailsOracle where
  infobox : String → List (String × String)
  seeAlso : String → List String
  image : String → Option String

/-- The name `title_plain` referenced by all three sections of
`get_wikipedia_details` is never bound in that function (the sibling
functions bind it; here only `title` is).  Evaluating it raises
`NameError` before the section's request parameters are built, so before
any request is issued. -/
def title_plain_ref : Except String String :=
  .error "NameError: name title_plain is not defined"

/-- Model of `get_wikipedia_details` (wikipedia_service.py lines
442-528): parse the title (returning the empty mapping on a malformed
URL), then run the three sections.  Each section evaluates `title_plain`
while building its request parameters; the resulting `NameError` is
swallowed by that section's `except Exception` handler, leaving `result`
untouched. -/
def get_wikipedia_details (ora : DetailsOracle) (url : String) :
    List (String × DetailVal) :=
  match wiki_title url with
  | none => []
  | some _title =>
    let result : List (String × DetailVal) := []
    let result :=
      match title_plain_ref with
      | .error _ => result
      | .ok tp =>
        let info := ora.infobox tp
        if info ≠ [] then result ++ [("infobox", .info info)] else result
    let result :=
      match title_plain_ref with
      | .error _ => result
      | .ok tp =>
        let see := ora.seeAlso tp
        if see ≠ [] then result ++ [("see_also", .links see)] else result
    let result :=
      match title_plain_ref with
      | .error _ => result
      | .ok tp =>
        match ora.image tp with
        | some img => result ++ [("image", .img img)]
        | none => result
    result

/-! ### Entity linking (`linker.py`)

The per-entity body of the `link_entities` loop.  `is_valid_wikipedia_url`
and `strip_trailing_ellipsis` come from `entityextractor.utils.text_utils`,
which is not among the provided sources: the former is modelled from the
spec ("if `candidate_url` matches the expected article-URL pattern for
the target language, accept it") as an oracle predicate, the latter as
the identity.  `get_wikipedia_extract`, `get_wikipedia_categories`,
`follow_wikipedia_redirect`, `fallback_wikipedia_url` and the Wikidata
and DBpedia lookups are single oracle calls here; only
`get_wikipedia_details` is the model defined above, as claim C6 depends
on its body. -/

/-- Service calls performed for one entity by `link_entities`. -/
inductive Call where
  | searchFallback (query : String)
  | extractFetch (url : String)
  | redirectCheck (url : String)
  | categoriesFetch (url : String)
  | detailsFetch (url : String)
  | wikidataIdFetch (url : String)
  | wikidataDetailsFetch (qid : String)
  | dbpediaFetch (url : String)
deriving DecidableEq, Repr

/-- Configuration flags consulted by the linking loop. -/
structure LinkConfig where
  useWikidata : Bool := true
  useDbpedia : Bool := false
  additionalDetails : Bool := false
deriving Repr

/-- Oracle for the per-entity linking ladder.  `fallbackUrl` is the
outcome of `fallback_wikipedia_url(entity_name, language)`, constant for
a fixed entity; `extract` is the outcome of `get_wikipedia_extract` per
URL; `redirect` is `follow_wikipedia_redirect(url, entity_name)`
returning (final URL, page title). -/
structure LinkOracle where
  validUrl : String → Bool
  fallbackUrl : Option String
  extract : String → Option String
  redirect : String → String × String
  categories : String → List String
  details : DetailsOracle
  wikidataId : String → Option String
  wikidataDetails : String → Option (List (String × String))
  dbpediaInfo : String → Option (List (String × String))

/-- Step 1 of the loop body (linker.py lines 63-75): accept the
model-proposed URL if valid, otherwise run the opensearch fallback. -/
def determine_url (ora : LinkOracle) (name : String)
    (llmUrl : Option String) : Option String × List Call :=
  match llmUrl with
  | some u =>
    if ora.validUrl u then (some u, [])
    else (ora.fallbackUrl, [.searchFallback name])
  | none => (ora.fallbackUrl, [.searchFallback name])

/-- Steps 2-4 of the loop body (linker.py lines 80-105): try the
extract; on failure check redirects (adopting a different final URL and
recording a corrected title), retry the extract, and as a last resort
run the opensearch fallback and retry against its URL when it differs.
Returns (final URL, corrected title, extract, trace). -/
def resolve_extract (ora : LinkOracle) (name url : String) :
    String × Option String × Option String × List Call :=
  match ora.extract url with
  | some e => (url, none, some e, [.extractFetch url])
  | none =>
    let red := ora.redirect url
    let url1 := if red.1 ≠ url then red.1 else url
    let titleOpt := if red.2 ≠ name then some red.2 else none
    let tr1 := [Call.extractFetch url, Call.redirectCheck url]
    match ora.extract url1 with
    | some e => (url1, titleOpt, some e, tr1 ++ [.extractFetch url1])
    | none =>
      let tr2 := tr1 ++ [Call.extractFetch url1, Call.searchFallback name]
      match ora.fallbackUrl with
      | some fb =>
        if fb ≠ url1 then (fb, titleOpt, ora.extract fb, tr2 ++ [.extractFetch fb])
        else (url1, titleOpt, none, tr2)
      | none => (url1, titleOpt, none, tr2)

/-- Enriched entity record: the fields the loop body may set. -/
structure LinkedEntity where
  wikipedia_url : String
  wikipedia_title : Option String := none
  wikipedia_extract : Option String := none
  wikipedia_categories : Option (List String) := none
  wikipedia_details : Option (List (String × DetailVal)) := none
  wikidata_id : Option String := none
  wikidata_details : Option (List (String × String)) := none
  dbpedia_info : Option (List (String × String)) := none
deriving DecidableEq, Repr

/-- Category fetch of the loop body (linker.py lines 107-111): only
when an extract was obtained; the field is set only on a non-empty
category list. -/
def cat_stage (ora : LinkOracle) (url1 : String) (extOpt : Option String) :
    Option (List String) × List Call :=
  match extOpt with
  | some _ =>
    (if ora.categories url1 ≠ [] then some (ora.categories url1) else none,
     [.categoriesFetch url1])
  | none => (none, [])

/-- Additional-details fetch of the loop body (linker.py lines 113-118):
only when `ADDITIONAL_DETAILS` is set and an extract was obtained; the
field is set only on a truthy (non-empty) result. -/
def det_stage (cfg : LinkConfig) (ora : LinkOracle) (url1 : String)
    (extOpt : Option String) :
    Option (List (String × DetailVal)) × List Call :=
  if cfg.additionalDetails && extOpt.isSome then
    (if get_wikipedia_details ora.details url1 ≠ [] then
       some (get_wikipedia_details ora.details url1)
     else none,
     [.detailsFetch url1])
  else (none, [])

/-- Wikidata lookup of the loop body (linker.py lines 120-183): gated
only on the `USE_WIKIDATA` flag; the details lookup runs when an
identifier was found. -/
def wd_stage (cfg : LinkConfig) (ora : LinkOracle) (url1 : String) :
    Option String × Option (List (String × String)) × List Call :=
  if cfg.useWikidata then
    match ora.wikidataId url1 with
    | some qid =>
      (some qid, ora.wikidataDetails qid,
       [.wikidataIdFetch url1, .wikidataDetailsFetch qid])
    | none => (none, none, [.wikidataIdFetch url1])
  else (none, none, [])

/-- DBpedia lookup of the loop body (linker.py lines 185-226): gated
only on the `USE_DBPEDIA` flag. -/
def db_stage (cfg : LinkConfig) (ora : LinkOracle) (url1 : String) :
    Option (List (String × String)) × List Call :=
  if cfg.useDbpedia then (ora.dbpediaInfo url1, [.dbpediaFetch url1])
  else (none, [])

/-- The per-entity body of `link_entities` (linker.py lines 56-228).
Returns `none` (entity unchanged) when no Wikipedia URL could be
determined, else the enriched record, together with the ordered trace of
service calls. -/
def link_one_entity (cfg : LinkConfig) (ora : LinkOracle) (name : String)
    (llmUrl : Option String) : Option LinkedEntity × List Call :=
  match determine_url ora name llmUrl with
  | (none, tr0) => (none, tr0)
  | (some url0, tr0) =>
    match resolve_extract ora name url0 with
    | (url1, titleOpt, extOpt, tr1) =>
      (some { wikipedia_url := url1, wikipedia_title := titleOpt,
              wikipedia_extract := extOpt,
              wikipedia_categories := (cat_stage ora url1 extOpt).1,
              wikipedia_details := (det_stage cfg ora url1 extOpt).1,
              wikidata_id := (wd_stage cfg ora url1).1,
              wikidata_details := (wd_stage cfg ora url1).2.1,
              dbpedia_info := (db_stage cfg ora url1).1 },
       tr0 ++ tr1 ++ (cat_stage ora url1 extOpt).2
         ++ (det_stage cfg ora url1 extOpt).2
         ++ (wd_stage cfg ora url1).2.2 ++ (db_stage cfg ora url1).2)

/-! ### Concrete test inputs used by the claim theorems -/

/-- The spec's Tier-1 scenario triple, implicit variant. -/
def apple_implicit : Rel :=
  { subject := "Apple", predicate := "competes with", obj := "Microsoft",
    inferred := "implicit" }

/-- The spec's Tier-1 scenario triple, explicit variant. -/
def apple_explicit : Rel :=
  { subject := "Apple", predicate := "competes with", obj := "Microsoft",
    inferred := "explicit" }

/-- Raw KGC candidate whose object is not a known entity. -/
def raw_unknown_object : RawRel :=
  { subject := some "A", predicate := some "p", obj := some "X" }

/-- Two relationships sharing the `(subject, object)` pair. -/
def rel_pair_a : Rel :=
  { subject := "S", predicate := "drives", obj := "O", inferred := "explicit" }

/-- Second relationship of the shared pair, differently worded. -/
def rel_pair_b : Rel :=
  { subject := "S", predicate := "is driving", obj := "O", inferred := "implicit" }

/-- A relationship whose `(subject, object)` pair is unique. -/
def rel_single : Rel :=
  { subject := "S", predicate := "owns", obj := "P", inferred := "explicit" }

/-- Linker configuration with both downstream stores enabled. -/
def cfg_both_stores : LinkConfig :=
  { useWikidata := true, useDbpedia := true, additionalDetails := false }

/-- Details oracle whose sections would all find content (were they
reachable). -/
def details_ora_full : DetailsOracle :=
  { infobox := fun _ => [("Population", "1000")],
    seeAlso := fun _ => ["https://de.wikipedia.org/wiki/Other"],
    image := fun _ => some "https://img.example/i.png" }

/-- Link oracle for which every extract attempt fails and both
downstream lookups miss. -/
def ora_no_extract : LinkOracle :=
  { validUrl := fun _ => true, fallbackUrl := none,
    extract := fun _ => none, redirect := fun u => (u, "E"),
    categories := fun _ => [], details := details_ora_full,
    wikidataId := fun _ => none, wikidataDetails := fun _ => none,
    dbpediaInfo := fun _ => none }

/-- The enriched record `link_one_entity` produces for `ora_no_extract`. -/
def ent_no_extract : LinkedEntity :=
  { wikipedia_url := "https://de.wikipedia.org/wiki/E" }

/-- Linker configuration requesting additional details. -/
def cfg_details : LinkConfig :=
  { useWikidata := false, useDbpedia := false, additionalDetails := true }

/-- Link oracle for which the first extract attempt succeeds. -/
def ora_with_extract : LinkOracle :=
  { validUrl := fun _ => true, fallbackUrl := none,
    extract := fun _ => some "Int text", redirect := fun u => (u, "E"),
    categories := fun _ => ["Cat"], details := details_ora_full,
    wikidataId := fun _ => none, wikidataDetails := fun _ => none,
    dbpediaInfo := fun _ => none }

/-- The enriched record `link_one_entity` produces for
`ora_with_extract` under `cfg_details`. -/
def ent_with_extract : LinkedEntity :=
  { wikipedia_url := "https://de.wikipedia.org/wiki/E",
    wikipedia_extract := some "Int text",
    wikipedia_categories := some ["Cat"] }

/-- Extract oracle: the original title has no extract, the opensearch
fallback points at a page that does. -/
def ora_fb_success : ExtractOracle :=
  { api := fun t => if t = "FB" then .found "fbtext" else .notFound,
    search := fun _ => some "https://de.wikipedia.org/wiki/FB",
    redirect := fun u => u, scrape := fun _ => none }

/-- The article URL used with `ora_fb_success`. -/
def url_T : String := "https://de.wikipedia.org/wiki/T"

/-! ## Theorems -/

/-- C1.  Tier-1 deduplication on the spec's own scenario — the same
`(subject, predicate, object)` key tagged `implicit` then `explicit` —
keeps the `implicit` record: the precedence branch of api.py lines 80-82
compares the `inferred` field against the German spellings
`"implizit"`/`"explizit"`, while the records produced by
`infer_entity_relationships` carry the English tags
`"implicit"`/`"explicit"` (normalised to English only after this
deduplication, api.py lines 141-144), so the explicit duplicate never
replaces the implicit representative. -/
theorem tier1_dedup_explicit_does_not_overrule :
    tier1_dedup [apple_implicit, apple_explicit] = [apple_implicit] ∧
    (tier1_dedup [apple_implicit, apple_explicit]).map Rel.inferred
      = ["implicit"] := by
  constructor <;> rfl

/-- C2.  The KGC branch of `infer_entity_relationships`
(relationship_inference.py lines 164-175) does not discard a candidate
triple whose endpoint is unknown: with known entities `[("A", "T")]` and
a service triple `("A", "p", "X")` whose object `X` is not a known
entity, the branch returns the triple with `object_type = ""` instead of
dropping it, while the explicit-pass filter of the same function (lines
316-327) discards the identical candidate. -/
theorem kgc_branch_keeps_unknown_endpoint :
    kgc_branch_filter (build_entity_type_map [("A", "T")]) []
        [raw_unknown_object]
      = [{ subject := "A", predicate := "p", obj := "X",
           inferred := "implicit", subject_type := "T",
           object_type := "" }] ∧
    valid_relationships_filter "extract" (build_entity_type_map [("A", "T")])
        [] [raw_unknown_object] = [] := by
  constructor <;> rfl

/-- Inserting a different key leaves a lookup unchanged. -/
theorem alist.lookup_insert_ne {K V : Type} [DecidableEq K]
    (k k' : K) (v : V) (m : List (K × V)) (h : k' ≠ k) :
    alist.lookup k (alist.insert k' v m) = alist.lookup k m := by
  induction m with
  | nil => simp [alist.insert, alist.lookup, h]
  | cons hd tl ih =>
    obtain ⟨a, b⟩ := hd
    by_cases ha : a = k'
    · subst ha
      simp [alist.insert, alist.lookup, h]
    · simp only [alist.insert, if_neg ha, alist.lookup]
      by_cases hak : a = k
      · simp [hak]
      · simp [hak, ih]

/-- The completion-loop merge step never replaces an existing binding. -/
theorem kgc_insert_if_new_preserves (m : List ((String × String × String) × Rel))
    (rel : Rel) (k : String × String × String) (r : Rel)
    (h : alist.lookup k m = some r) :
    alist.lookup k (kgc_insert_if_new m rel) = some r := by
  unfold kgc_insert_if_new
  cases hl : alist.lookup rel.key m with
  | some _ => simpa [hl] using h
  | none =>
    have hk : rel.key ≠ k := fun he => by rw [he, h] at hl; exact Option.noConfusion hl
    simp [hl, alist.lookup_insert_ne _ _ _ _ hk, h]

/-- Folding a round's output over the merge step preserves bindings. -/
theorem foldl_insert_if_new_preserves (rels : List Rel) :
    ∀ (m : List ((String × String × String) × Rel)) (k : String × String × String)
      (r : Rel), alist.lookup k m = some r →
      alist.lookup k (rels.foldl kgc_insert_if_new m) = some r := by
  induction rels with
  | nil => intro m k r h; simpa using h
  | cons hd tl ih =>
    intro m k r h
    exact ih _ _ _ (kgc_insert_if_new_preserves m hd k r h)

/-- The completion loop performs one extractor call per round. -/
theorem kgc_loop_calls (infer : Nat → List Rel → List Rel) :
    ∀ (n idx : Nat) (m : List ((String × String × String) × Rel)) (c : Nat),
      (kgc_loop infer n idx m c).2 = c + n := by
  intro n
  induction n with
  | zero => intro idx m c; simp [kgc_loop]
  | succ n ih =>
    intro idx m c
    rw [kgc_loop, ih]
    omega

/-- The completion loop preserves the bindings it started with. -/
theorem kgc_loop_preserves (infer : Nat → List Rel → List Rel) :
    ∀ (n idx : Nat) (m : List ((String × String × String) × Rel)) (c : Nat)
      (k : String × String × String) (r : Rel),
      alist.lookup k m = some r →
      alist.lookup k (kgc_loop infer n idx m c).1 = some r := by
  intro n
  induction n with
  | zero => intro idx m c k r h; simpa [kgc_loop] using h
  | succ n ih =>
    intro idx m c k r h
    rw [kgc_loop]
    exact ih _ _ _ _ _ (foldl_insert_if_new_preserves _ _ _ _ h)

/-- C5.  The completion loop of `process_entities` invokes the
relationship extractor exactly `rounds` times — there is no
convergence-based early exit, so this holds for every oracle, including
one that contributes zero new triples each round — and a key already
bound in the accumulated map keeps its original record: rounds extend
the accumulation only with triples whose `(subject, predicate, object)`
key is not already present. -/
theorem kgc_run_calls_and_merge (infer : Nat → List Rel → List Rel)
    (rounds : Nat) (init : List ((String × String × String) × Rel)) :
    (kgc_run infer rounds init).2 = rounds ∧
    ∀ (k : String × String × String) (r : Rel),
      alist.lookup k init = some r →
      alist.lookup k (kgc_run infer rounds init).1 = some r := by
  constructor
  · rw [kgc_run, kgc_loop_calls]
    omega
  · intro k r h
    exact kgc_loop_preserves infer rounds 1 init 0 k r h

/-- Witness for C5: the spec's scenario — three configured rounds whose
extractor returns zero new triples each time — performs exactly three
calls and keeps the pre-existing binding. -/
theorem kgc_run_calls_and_merge_witness :
    (kgc_run (fun _ _ => []) 3 [(apple_explicit.key, apple_explicit)]).2 = 3 ∧
    alist.lookup apple_explicit.key
        (kgc_run (fun _ _ => []) 3 [(apple_explicit.key, apple_explicit)]).1
      = some apple_explicit :=
  ⟨(kgc_run_calls_and_merge (fun _ _ => []) 3 _).1,
   (kgc_run_calls_and_merge (fun _ _ => []) 3 _).2 _ _ rfl⟩

/-- Adding a relationship to the grouping creates or extends the group
keyed by its own `(subject, object)` pair. -/
theorem mem_add_to_group_self (r : Rel) :
    ∀ gs, ∃ g, ((r.subject, r.obj), g) ∈ add_to_group r gs ∧ r ∈ g := by
  intro gs
  induction gs with
  | nil => exact ⟨[r], by simp [add_to_group]⟩
  | cons hd tl ih =>
    obtain ⟨k, g0⟩ := hd
    by_cases hk : k = (r.subject, r.obj)
    · subst hk
      exact ⟨g0 ++ [r], by simp [add_to_group]⟩
    · obtain ⟨g, hg, hrg⟩ := ih
      exact ⟨g, by simp [add_to_group, hk, hg], hrg⟩

/-- Adding a relationship never shrinks an existing group. -/
theorem add_to_group_mono (r : Rel) {k : String × String} {g : List Rel} :
    ∀ gs, (k, g) ∈ gs →
      ∃ g', (k, g') ∈ add_to_group r gs ∧ ∀ x ∈ g, x ∈ g' := by
  intro gs
  induction gs with
  | nil => intro h; exact absurd h (List.not_mem_nil _)
  | cons hd tl ih =>
    obtain ⟨k0, g0⟩ := hd
    intro h
    rcases List.mem_cons.mp h with heq | htl
    · cases heq
      by_cases hkey : k = (r.subject, r.obj)
      · exact ⟨g ++ [r], by simp [add_to_group, hkey],
          fun x hx => List.mem_append_left _ hx⟩
      · exact ⟨g, by simp [add_to_group, hkey], fun x hx => hx⟩
    · by_cases hkey : k0 = (r.subject, r.obj)
      · exact ⟨g, by simp [add_to_group, hkey, htl], fun x hx => hx⟩
      · obtain ⟨g', hg', hsub⟩ := ih htl
        exact ⟨g', by simp [add_to_group, hkey, hg'], hsub⟩

/-- Existing groups persist (possibly grown) through the grouping
pass. -/
theorem group_by_pair_aux_persist :
    ∀ (rels : List Rel) (acc : List ((String × String) × List Rel))
      (k : String × String) (g : List Rel), (k, g) ∈ acc →
      ∃ g', (k, g') ∈ group_by_pair_aux acc rels ∧ ∀ x ∈ g, x ∈ g' := by
  intro rels
  induction rels with
  | nil => intro acc k g h; exact ⟨g, h, fun x hx => hx⟩
  | cons r rest ih =>
    intro acc k g h
    obtain ⟨g1, hg1, hsub1⟩ := add_to_group_mono r acc h
    obtain ⟨g', hg', hsub'⟩ := ih (add_to_group r acc) k g1 hg1
    exact ⟨g', hg', fun x hx => hsub' x (hsub1 x hx)⟩

/-- Every relationship ends up in the group keyed by its own
`(subject, object)` pair. -/
theorem group_by_pair_mem (rels : List Rel) (r : Rel) (h : r ∈ rels) :
    ∃ g, ((r.subject, r.obj), g) ∈ group_by_pair rels ∧ r ∈ g := by
  suffices hgen : ∀ (l : List Rel) (acc : List ((String × String) × List Rel)),
      r ∈ l → ∃ g, ((r.subject, r.obj), g) ∈ group_by_pair_aux acc l ∧ r ∈ g by
    exact hgen rels [] h
  intro l
  induction l with
  | nil => intro acc h0; exact absurd h0 (List.not_mem_nil _)
  | cons hd tl ih =>
    intro acc h0
    rcases List.mem_cons.mp h0 with heq | htl
    · subst heq
      obtain ⟨g0, hg0, hrg0⟩ := mem_add_to_group_self r acc
      obtain ⟨g', hg', hsub⟩ :=
        group_by_pair_aux_persist tl (add_to_group r acc) _ g0 hg0
      exact ⟨g', hg', hsub r hrg0⟩
    · exact ih (add_to_group hd acc) htl

/-- A member of a group whose service call fails (and a member of any
singleton group) survives the per-group processing. -/
theorem dedup_groups_mem (llm : String → String → Option (List CleanedRel)) :
    ∀ (gs : List ((String × String) × List Rel)) (s o : String)
      (g : List Rel) (r : Rel), ((s, o), g) ∈ gs → r ∈ g →
      llm s o = none → r ∈ (dedup_groups llm gs).1 := by
  intro gs
  induction gs with
  | nil => intro s o g r h; exact absurd h (List.not_mem_nil _)
  | cons hd tl ih =>
    intro s o g r hmem hrg hfail
    rcases List.mem_cons.mp hmem with heq | htl
    · subst heq
      rcases g with _ | ⟨r0, g'⟩
      · exact absurd hrg (List.not_mem_nil _)
      · rcases g' with _ | ⟨r1, grest⟩
        · have hrr : r = r0 := by simpa using hrg
          subst hrr
          simp [dedup_groups]
        · simp only [dedup_groups, hfail]
          exact List.mem_append_left _ hrg
    · have hr' : r ∈ (dedup_groups llm tl).1 := ih s o g r htl hrg hfail
      obtain ⟨⟨s0, o0⟩, g0⟩ := hd
      rcases g0 with _ | ⟨r0, g0'⟩
      · cases hcall : llm s0 o0 <;>
          simp [dedup_groups, hcall, List.mem_append, hr']
      · rcases g0' with _ | ⟨r1, grest⟩
        · simp [dedup_groups, hr']
        · cases hcall : llm s0 o0 <;>
            simp [dedup_groups, hcall, List.mem_append, hr']

/-- C7.  Tier-2 deduplication never drops a relationship whose group it
cannot process: whenever the chat-completion call for the
`(subject, object)` group of a relationship fails (raises), that
relationship — like every member of its group — appears unchanged in the
output, for any input list and key availability. -/
theorem dedup_llm_failed_group_passthrough
    (llm : String → String → Option (List CleanedRel)) (hasKey : Bool)
    (rels : List Rel) (r : Rel) (hr : r ∈ rels)
    (hfail : llm r.subject r.obj = none) :
    r ∈ (deduplicate_relationships_llm llm hasKey rels).1 := by
  unfold deduplicate_relationships_llm
  have hne : rels.isEmpty = false := by
    cases rels with
    | nil => exact absurd hr (List.not_mem_nil _)
    | cons a l => rfl
  rw [hne]
  cases hasKey with
  | false => simpa using hr
  | true =>
    obtain ⟨g, hg, hrg⟩ := group_by_pair_mem rels r hr
    simpa using dedup_groups_mem llm (group_by_pair rels) r.subject r.obj g r hg hrg hfail

/-- Witness for C7: a two-element group whose service call fails passes
both originals through. -/
theorem dedup_llm_failed_group_passthrough_witness :
    rel_pair_a ∈
      (deduplicate_relationships_llm (fun _ _ => none) true
        [rel_pair_a, rel_pair_b]).1 :=
  dedup_llm_failed_group_passthrough (fun _ _ => none) true
    [rel_pair_a, rel_pair_b] rel_pair_a (by simp) rfl

/-- Adding a relationship whose key matches no existing group opens a
new singleton group at the end. -/
theorem add_to_group_nomatch (r : Rel) :
    ∀ gs, (∀ kg ∈ gs, kg.1 ≠ (r.subject, r.obj)) →
      add_to_group r gs = gs ++ [((r.subject, r.obj), [r])] := by
  intro gs
  induction gs with
  | nil => intro h; rfl
  | cons hd tl ih =>
    intro h
    obtain ⟨k0, g0⟩ := hd
    have hk0 : k0 ≠ (r.subject, r.obj) := h (k0, g0) (List.mem_cons_self _ _)
    simp only [add_to_group, if_neg hk0, List.cons_append, List.cons.injEq,
      true_and]
    exact ih fun kg hkg => h kg (List.mem_cons_of_mem _ hkg)

/-- When all keys are pairwise distinct (and none is already in the
accumulator), grouping yields one singleton group per relationship, in
order. -/
theorem group_by_pair_aux_distinct :
    ∀ (rels : List Rel) (acc : List ((String × String) × List Rel)),
      rels.Pairwise (fun a b => (a.subject, a.obj) ≠ (b.subject, b.obj)) →
      (∀ r ∈ rels, ∀ kg ∈ acc, kg.1 ≠ (r.subject, r.obj)) →
      group_by_pair_aux acc rels
        = acc ++ rels.map (fun r => ((r.subject, r.obj), [r])) := by
  intro rels
  induction rels with
  | nil => intro acc _ _; simp [group_by_pair_aux]
  | cons r rest ih =>
    intro acc hdist hacc
    have hpair := List.pairwise_cons.mp hdist
    rw [group_by_pair_aux,
      add_to_group_nomatch r acc (hacc r (List.mem_cons_self _ _)),
      ih (acc ++ [((r.subject, r.obj), [r])]) hpair.2 ?_]
    · simp
    · intro r' hr' kg hkg
      rcases List.mem_append.mp hkg with hin | hin
      · exact hacc r' (List.mem_cons_of_mem _ hr') kg hin
      · have : kg = ((r.subject, r.obj), [r]) := by simpa using hin
        rw [this]
        exact hpair.1 r' hr'

/-- A list of singleton groups passes through the per-group processing
unchanged and without service calls. -/
theorem dedup_groups_singletons (llm : String → String → Option (List CleanedRel)) :
    ∀ rels : List Rel,
      dedup_groups llm (rels.map (fun r => ((r.subject, r.obj), [r])))
        = (rels, 0) := by
  intro rels
  induction rels with
  | nil => rfl
  | cons r rest ih => simp [dedup_groups, ih]

/-- C10.  On a non-empty relationship list in which no two records share
a `(subject, object)` pair, Tier-2 deduplication is the identity: every
group is a singleton, each is forwarded verbatim in order, and no
chat-completion call is made. -/
theorem dedup_llm_identity_on_distinct_pairs
    (llm : String → String → Option (List CleanedRel)) (rels : List Rel)
    (hne : rels ≠ [])
    (hdist : rels.Pairwise (fun a b => (a.subject, a.obj) ≠ (b.subject, b.obj))) :
    deduplicate_relationships_llm llm true rels = (rels, 0) := by
  unfold deduplicate_relationships_llm
  have hempty : rels.isEmpty = false := by
    cases rels with
    | nil => exact absurd rfl hne
    | cons a l => rfl
  rw [hempty, group_by_pair,
    group_by_pair_aux_distinct rels [] hdist (by simp)]
  simpa using dedup_groups_singletons llm rels

/-- Witness for C10: two relationships with distinct pairs pass through
with zero calls. -/
theorem dedup_llm_identity_on_distinct_pairs_witness :
    deduplicate_relationships_llm (fun _ _ => none) true
        [rel_pair_a, rel_single]
      = ([rel_pair_a, rel_single], 0) :=
  dedup_llm_identity_on_distinct_pairs (fun _ _ => none)
    [rel_pair_a, rel_single] (by simp) (by decide)

/-- Index returned by the `find` scan: at least the start index, with
the needle a prefix of the haystack at the found offset. -/
theorem py_find_aux_spec (needle : List Char) :
    ∀ (hay : List Char) (i j : Nat), py_find_aux needle i hay = some j →
      i ≤ j ∧ needle.isPrefixOf (hay.drop (j - i)) = true := by
  intro hay
  induction hay with
  | nil =>
    intro i j h
    rw [py_find_aux] at h
    by_cases hp : needle.isPrefixOf [] = true
    · rw [if_pos hp] at h
      obtain rfl : i = j := Option.some.injEq .. ▸ h
      simpa using hp
    · rw [if_neg hp] at h
      exact absurd h (Option.noConfusion)
  | cons c t ih =>
    intro i j h
    rw [py_find_aux] at h
    by_cases hp : needle.isPrefixOf (c :: t) = true
    · rw [if_pos hp] at h
      obtain rfl : i = j := Option.some.injEq .. ▸ h
      simpa using hp
    · rw [if_neg hp] at h
      obtain ⟨hij, hpre⟩ := ih (i + 1) j h
      refine ⟨by omega, ?_⟩
      have hidx : j - i = (j - (i + 1)) + 1 := by omega
      rw [hidx, List.drop_succ_cons]
      exact hpre

/-- When Python `find` does not return `-1`, the needle occurs at the
returned index. -/
theorem py_find_found (hay needle : List Char) (h : py_find hay needle ≠ -1) :
    ∃ n : Nat, py_find hay needle = (n : Int) ∧
      needle.isPrefixOf (hay.drop n) = true := by
  unfold py_find at *
  cases haux : py_find_aux needle 0 hay with
  | none => rw [haux] at h; exact absurd rfl h
  | some j =>
    obtain ⟨-, hpre⟩ := py_find_aux_spec needle hay 0 j haux
    exact ⟨j, rfl, by simpa using hpre⟩

/-- Python `find` on identical strings returns `0`. -/
theorem py_find_self (text : List Char) : py_find text text = 0 := by
  have h : py_find_aux text 0 text = some 0 := by
    rw [py_find_aux.eq_def]
    simp [List.isPrefixOf_iff_prefix.mpr (List.prefix_refl text)]
  unfold py_find
  rw [h]
  rfl

/-- The slice at a found occurrence recovers the needle. -/
theorem py_slice_of_prefix (text c : List Char) (n : Nat)
    (h : c.isPrefixOf (text.drop n) = true) :
    py_slice text n (n + c.length) = c := by
  unfold py_slice
  rw [← List.take_drop n c.length text]
  exact (List.prefix_iff_eq_take.mp (List.isPrefixOf_iff_prefix.mp h)).symm

/-- C9 counterexample.  For input text `"ab"` and a citation `"zz"` that
does not occur in it, the legacy span is `(-1, 2)` — `citation_end` is
the text length, not the sentinel `-1` the claim requires for both
fields. -/
theorem legacy_citation_span_counterexample :
    legacy_citation_span ['a', 'b'] (some ['z', 'z']) = (-1, 2) ∧
    py_find ['a', 'b'] ['z', 'z'] = -1 := by
  constructor <;> rfl

/-- C9 amended.  When the citation occurs in the input text,
`citation_start` is its first occurrence offset and
`citation_end = citation_start + len(citation)`, with the slice between
them equal to the citation; when it does not occur, `citation_start` is
`-1` and `citation_end` is the input text's length (not `-1`). -/
theorem legacy_citation_span_amended (text : List Char)
    (citf : Option (List Char)) :
    (py_find text (citf.getD text) ≠ -1 →
      (legacy_citation_span text citf).1 = py_find text (citf.getD text) ∧
      (legacy_citation_span text citf).2
        = (legacy_citation_span text citf).1 + (citf.getD text).length ∧
      py_slice text (legacy_citation_span text citf).1.toNat
          ((legacy_citation_span text citf).1.toNat + (citf.getD text).length)
        = citf.getD text) ∧
    (py_find text (citf.getD text) = -1 →
      (legacy_citation_span text citf).1 = -1 ∧
      (legacy_citation_span text citf).2 = text.length) := by
  constructor
  · intro h
    obtain ⟨n, hn, hpre⟩ := py_find_found text (citf.getD text) h
    by_cases hc : citf.getD text = text
    · have hfind0 : py_find text (citf.getD text) = 0 := by
        rw [hc]; exact py_find_self text
      have hspan1 : (legacy_citation_span text citf).1 = 0 := by
        simp [legacy_citation_span, hc]
      refine ⟨by rw [hspan1, hfind0], ?_, ?_⟩
      · simp [legacy_citation_span, hc]
      · rw [hspan1]
        have : py_slice text 0 (0 + (citf.getD text).length) = citf.getD text := by
          apply py_slice_of_prefix
          rw [hc]
          simp [List.isPrefixOf_iff_prefix.mpr (List.prefix_refl text)]
        simpa using this
    · have hspan1 : (legacy_citation_span text citf).1
          = py_find text (citf.getD text) := by
        simp [legacy_citation_span, hc]
      refine ⟨hspan1, ?_, ?_⟩
      · simp only [legacy_citation_span, if_neg (by simpa using hc)]
        rw [if_pos]
        exact fun habs => h (hspan1 ▸ habs : _) |>.elim
      · rw [hspan1, hn]
        simpa using py_slice_of_prefix text (citf.getD text) n hpre
  · intro h
    have hc : citf.getD text ≠ text := by
      intro hc
      rw [hc, py_find_self] at h
      exact absurd h (by decide)
    constructor
    · simp [legacy_citation_span, hc, h]
    · simp [legacy_citation_span, hc, h]

/-- Witness for C9's amended claim: a found citation (`"b"` inside
`"abc"`) and a missing one (`"zz"` inside `"ab"`). -/
theorem legacy_citation_span_amended_witness :
    ((legacy_citation_span ['a', 'b', 'c'] (some ['b'])).1
        = py_find ['a', 'b', 'c'] ['b'] ∧
      (legacy_citation_span ['a', 'b', 'c'] (some ['b'])).2
        = (legacy_citation_span ['a', 'b', 'c'] (some ['b'])).1 + 1 ∧
      py_slice ['a', 'b', 'c']
          (legacy_citation_span ['a', 'b', 'c'] (some ['b'])).1.toNat
          ((legacy_citation_span ['a', 'b', 'c'] (some ['b'])).1.toNat + 1)
        = ['b']) ∧
    ((legacy_citation_span ['a', 'b'] (some ['z', 'z'])).1 = -1 ∧
      (legacy_citation_span ['a', 'b'] (some ['z', 'z'])).2 = 2) :=
  ⟨(legacy_citation_span_amended ['a', 'b', 'c'] (some ['b'])).1 (by decide),
   (legacy_citation_span_amended ['a', 'b'] (some ['z', 'z'])).2 (by decide)⟩

/-- Scanning for a single character skips a block not containing it. -/
theorem py_find_aux_single_append (x : Char) (pre : List Char) (hx : x ∉ pre) :
    ∀ (i : Nat) (rest : List Char),
      py_find_aux [x] i (pre ++ rest) = py_find_aux [x] (i + pre.length) rest := by
  induction pre with
  | nil => intro i rest; simp
  | cons c p ih =>
    intro i rest
    have hxc : x ≠ c := fun he => hx (he ▸ List.mem_cons_self c p)
    have hxp : x ∉ p := fun hm => hx (List.mem_cons_of_mem c hm)
    have hstep : py_find_aux [x] i (c :: (p ++ rest))
        = py_find_aux [x] (i + 1) (p ++ rest) := by
      rw [py_find_aux.eq_def]
      simp [List.isPrefixOf, hxc]
    rw [List.cons_append, hstep, ih hxp (i + 1) rest]
    congr 1
    simp
    omega

/-- Scanning for a single character succeeds at its occurrence. -/
theorem py_find_aux_single_head (x : Char) (i : Nat) (t : List Char) :
    py_find_aux [x] i (x :: t) = some i := by
  rw [py_find_aux.eq_def]
  simp [List.isPrefixOf]

/-- `find` of a character across an occurrence-free block. -/
theorem py_find_char_append (x : Char) (pre t : List Char) (hx : x ∉ pre) :
    py_find_char (pre ++ x :: t) x = pre.length := by
  unfold py_find_char py_find
  rw [py_find_aux_single_append x pre hx 0 (x :: t), py_find_aux_single_head]
  simp

/-- `rfind` of a character whose last occurrence is followed by an
occurrence-free block. -/
theorem py_rfind_char_append (x : Char) (pre post : List Char) (hx : x ∉ post) :
    py_rfind_char (pre ++ x :: post) x = ((pre.length : Nat) : Int) := by
  unfold py_rfind_char
  have hrev : (pre ++ x :: post).reverse = post.reverse ++ x :: pre.reverse := by
    simp
  have hxrev : x ∉ post.reverse := by simpa using hx
  rw [hrev, py_find_aux_single_append x post.reverse hxrev 0 (x :: pre.reverse),
    py_find_aux_single_head]
  simp only [List.length_append, List.length_cons, List.length_reverse]
  push_cast
  omega

/-- A non-failing `find` returns an index inside the string. -/
theorem py_find_char_found_lt (s : List Char) (x : Char)
    (h : py_find_char s x ≠ -1) :
    ∃ n : Nat, py_find_char s x = (n : Int) ∧ n < s.length := by
  obtain ⟨n, hn, hpre⟩ := py_find_found s [x] h
  refine ⟨n, hn, List.length_lt_of_drop_ne_nil fun hnil => ?_⟩
  rw [hnil] at hpre
  simp [List.isPrefixOf] at hpre

/-- A non-failing `rfind` returns an index inside the string. -/
theorem py_rfind_char_found (s : List Char) (x : Char)
    (h : py_rfind_char s x ≠ -1) :
    ∃ n : Nat, py_rfind_char s x = (n : Int) ∧ n < s.length := by
  unfold py_rfind_char at *
  cases haux : py_find_aux [x] 0 s.reverse with
  | none => rw [haux] at h; exact absurd rfl h
  | some j =>
    obtain ⟨-, hpre⟩ := py_find_aux_spec [x] s.reverse 0 j haux
    have hj : j < s.length := by
      have hne : s.reverse.drop (j - 0) ≠ [] := fun hnil => by
        rw [hnil] at hpre
        simp [List.isPrefixOf] at hpre
      have hlen := List.length_lt_of_drop_ne_nil hne
      simpa using hlen
    refine ⟨s.length - 1 - j, ?_, by omega⟩
    show (s.length : Int) - 1 - (j : Int) = ((s.length - 1 - j : Nat) : Int)
    omega

/-- C8 counterexample.  The response `"see [1, 2] and [3]!"` contains a
first well-formed JSON array, `[1, 2]`, but `extract_json_relationships`
returns the empty list: the substring from the first `[` to the last `]`
(`"[1, 2] and [3]"`) is not valid JSON, and the raised parse error is
caught and mapped to `[]` — the parser does not bracket-match the first
well-formed array. -/
theorem extract_json_relationships_counterexample :
    py_json_loads ("[1, 2]".toList) = some (.jarr [.jnum "1", .jnum "2"]) ∧
    first_wellformed_array ("see [1, 2] and [3]!".toList)
      = some (.jarr [.jnum "1", .jnum "2"]) ∧
    extract_json_relationships ("see [1, 2] and [3]!".toList) = .jarr [] := by
  refine ⟨rfl, rfl, rfl⟩

/-- C8 amended.  `extract_json_relationships` parses the substring from
the first `[` to the last `]` (or, when no such substring exists, the
whole response): it tolerates surrounding prose/fencing whenever the
response contains a single bracket-delimited array — the brackets of the
array being the outermost ones — and returns an empty list instead of
raising when neither that substring nor the whole response is valid
JSON. -/
theorem extract_json_relationships_amended :
    (∀ (pre arr post : List Char) (xs : List Jval),
        py_json_loads arr = some (.jarr xs) →
        arr.head? = some '[' →
        arr.getLast? = some ']' →
        '[' ∉ pre → ']' ∉ post →
        extract_json_relationships (pre ++ arr ++ post) = .jarr xs) ∧
    (∀ raw : List Char,
        py_json_loads raw = none →
        (∀ a : Nat, a ≤ raw.length → ∀ b : Nat, b ≤ raw.length →
          py_json_loads (py_slice raw a b) = none) →
        extract_json_relationships raw = .jarr []) := by
  constructor
  · intro pre arr post xs hload hhead hlast hpre hpost
    obtain ⟨mid, rfl⟩ : ∃ mid, arr = '[' :: mid := by
      cases arr with
      | nil => exact absurd hhead (by simp)
      | cons a t =>
        have ha : a = '[' := by simpa using hhead
        exact ⟨t, by rw [ha]⟩
    obtain ⟨arrF, harrF⟩ := List.getLast?_eq_some_iff.mp hlast
    have hlen : ('[' :: mid).length = arrF.length + 1 := by
      rw [harrF]; simp
    have hfind : py_find_char (pre ++ ('[' :: mid) ++ post) '['
        = ((pre.length : Nat) : Int) := by
      have hshape : pre ++ ('[' :: mid) ++ post = pre ++ '[' :: (mid ++ post) := by
        simp
      rw [hshape, py_find_char_append '[' pre (mid ++ post) hpre]
    have hrfind : py_rfind_char (pre ++ ('[' :: mid) ++ post) ']'
        = (((pre.length + arrF.length : Nat)) : Int) := by
      have hshape : pre ++ ('[' :: mid) ++ post
          = (pre ++ arrF) ++ ']' :: post := by
        rw [harrF]; simp
      rw [hshape, py_rfind_char_append ']' (pre ++ arrF) post hpost]
      simp
    have hslice : py_slice (pre ++ ('[' :: mid) ++ post) pre.length
        (pre.length + ('[' :: mid).length) = '[' :: mid := by
      unfold py_slice
      have h1 : pre ++ ('[' :: mid) ++ post
          = (pre ++ ('[' :: mid)) ++ post := by simp
      have h2 : pre.length + ('[' :: mid).length
          = (pre ++ ('[' :: mid)).length := by simp
      rw [h1, h2, List.take_left]
      have h3 : (pre ++ ('[' :: mid)).take pre.length = pre ∧
          (pre ++ ('[' :: mid)).drop pre.length = '[' :: mid :=
        ⟨List.take_left pre _, List.drop_left pre _⟩
      exact h3.2
    simp only [extract_json_relationships]
    rw [hfind, hrfind]
    rw [if_pos (by constructor <;> omega)]
    have harg1 : (((pre.length : Nat) : Int)).toNat = pre.length := rfl
    have harg2 : ((((pre.length + arrF.length : Nat)) : Int) + 1).toNat
        = pre.length + ('[' :: mid).length := by omega
    rw [harg1, harg2, hslice, hload]
  · intro raw h1 h2
    simp only [extract_json_relationships]
    by_cases hcond : 0 ≤ py_find_char raw '[' ∧
        py_find_char raw '[' < py_rfind_char raw ']' + 1
    · rw [if_pos hcond]
      obtain ⟨n1, hn1, hlt1⟩ := py_find_char_found_lt raw '['
        (fun he => by rw [he] at hcond; exact absurd hcond.1 (by decide))
      obtain ⟨n2, hn2, hlt2⟩ := py_rfind_char_found raw ']'
        (fun he => by
          rw [he] at hcond
          obtain ⟨hc1, hc2⟩ := hcond
          omega)
      rw [hn1, hn2]
      have ha : ((n1 : Int)).toNat = n1 := rfl
      have hb : ((n2 : Int) + 1).toNat = n2 + 1 := by omega
      rw [ha, hb, h2 n1 (by omega) (n2 + 1) (by omega)]
    · rw [if_neg hcond, h1]

/-- Witness for C8's amended claim: prose around a single array is
tolerated, and a bracket-free non-JSON response yields the empty
list. -/
theorem extract_json_relationships_amended_witness :
    extract_json_relationships ("x ".toList ++ "[1]".toList ++ " y".toList)
      = .jarr [.jnum "1"] ∧
    extract_json_relationships ['j', 'u', 'n', 'k'] = .jarr [] :=
  ⟨extract_json_relationships_amended.1 ("x ".toList) ("[1]".toList)
      (" y".toList) [.jnum "1"] rfl rfl rfl (by decide) (by decide),
   extract_json_relationships_amended.2 ['j', 'u', 'n', 'k'] rfl (by
     intro a ha b hb
     simp only [List.length_cons, List.length_nil] at ha hb
     interval_cases a <;> interval_cases b <;> rfl)⟩

/-- The fallback section yields `none` exactly when the opensearch
attempt failed in the sense of `fb_attempt_fails`. -/
theorem wp_fb_stage_none (ora : ExtractOracle) (url title : String)
    (h : (wp_fb_stage ora url title).1 = none) :
    fb_attempt_fails ora url title := by
  unfold wp_fb_stage at h
  unfold fb_attempt_fails
  revert h
  rcases ora.search title with _ | fb
  · intro h; trivial
  · dsimp only
    by_cases hfb : fb = url
    · intro h; exact Or.inl hfb
    · rw [if_pos hfb]
      rcases wiki_title fb with _ | fbt
      · intro h; exact Or.inr trivial
      · dsimp only
        intro h
        refine Or.inr ?_
        intro e hfound
        rw [hfound] at h
        simp at h

/-- The redirect section yields `none` exactly when redirect resolution
failed in the sense of `sr_attempt_fails`. -/
theorem wp_sr_stage_none (ora : ExtractOracle) (url : String)
    (h : (wp_sr_stage ora url).1 = none) :
    sr_attempt_fails ora url := by
  unfold wp_sr_stage at h
  unfold sr_attempt_fails
  revert h
  by_cases hr : ora.redirect url = url
  · intro h; exact Or.inl hr
  · rw [if_pos hr]
    rcases wiki_title (ora.redirect url) with _ | srt
    · intro h; exact Or.inr trivial
    · dsimp only
      intro h
      refine Or.inr ?_
      intro e hfound
      rw [hfound] at h
      simp at h

/-- The fallback section's own trace is empty or a single extract
fetch. -/
theorem wp_fb_stage_trace_shape (ora : ExtractOracle) (url title : String) :
    (wp_fb_stage ora url title).2 = [] ∨
    ∃ t, (wp_fb_stage ora url title).2 = [WCall.apiFetch t] := by
  unfold wp_fb_stage
  rcases ora.search title with _ | fb
  · exact Or.inl rfl
  · dsimp only
    by_cases hfb : fb = url
    · simp [hfb]
    · rw [if_pos hfb]
      rcases wiki_title fb with _ | fbt
      · exact Or.inl rfl
      · dsimp only
        rcases ora.api fbt <;> exact Or.inr ⟨fbt, rfl⟩

/-- The redirect section's own trace is the redirect check, possibly
followed by one extract fetch. -/
theorem wp_sr_stage_trace_shape (ora : ExtractOracle) (url : String) :
    (wp_sr_stage ora url).2 = [WCall.redirectCall url] ∨
    ∃ t, (wp_sr_stage ora url).2 = [WCall.redirectCall url, WCall.apiFetch t] := by
  unfold wp_sr_stage
  by_cases hr : ora.redirect url = url
  · simp [hr]
  · rw [if_pos hr]
    rcases wiki_title (ora.redirect url) with _ | srt
    · exact Or.inl rfl
    · dsimp only
      rcases ora.api srt <;> exact Or.inr ⟨srt, rfl⟩

/-- C4 counterexample.  With a page whose summary fetch yields nothing
and an opensearch fallback that succeeds, `get_wikipedia_extract` runs
the second search fallback immediately after the failed fetch and never
attempts redirect/canonical resolution — the claim's order (redirect
resolution next, search fallback only after its retry fails) does not
match the code. -/
theorem get_wikipedia_extract_counterexample :
    ora_fb_success.api "T" = .notFound ∧
    get_wikipedia_extract ora_fb_success url_T
      = (some "fbtext",
         [.apiFetch "T", .searchCall "T", .apiFetch "FB"]) ∧
    WCall.redirectCall url_T ∉ (get_wikipedia_extract ora_fb_success url_T).2 := by
  refine ⟨rfl, rfl, by decide⟩

/-- C4 amended.  When the summary fetch against the working URL yields
nothing, the second search fallback is attempted next (the trace starts
with the failed fetch followed by the search call) with one summary
retry against the returned URL — a successful retry ends the ladder with
no redirect resolution and no scraping; redirect/canonical resolution is
attempted only if the search fallback yielded nothing; scraping runs
only after both the search fallback and the redirect retry yielded
nothing, i.e. only after all API-based attempts fail. -/
theorem get_wikipedia_extract_order_amended (ora : ExtractOracle)
    (url title : String) (ht : wiki_title url = some title)
    (hnf : ora.api title = .notFound) :
    (get_wikipedia_extract ora url).2.take 2
      = [WCall.apiFetch title, WCall.searchCall title] ∧
    (∀ fb fbt e, ora.search title = some fb → fb ≠ url →
      wiki_title fb = some fbt → ora.api fbt = .found e →
      get_wikipedia_extract ora url
        = (some e, [WCall.apiFetch title, WCall.searchCall title,
                    WCall.apiFetch fbt])) ∧
    (WCall.redirectCall url ∈ (get_wikipedia_extract ora url).2 →
      fb_attempt_fails ora url title) ∧
    (WCall.scrapeCall url ∈ (get_wikipedia_extract ora url).2 →
      fb_attempt_fails ora url title ∧ sr_attempt_fails ora url ∧
      (get_wikipedia_extract ora url).1 = ora.scrape url) := by
  have hrepr : get_wikipedia_extract ora url =
      (match wp_fb_stage ora url title with
       | (some e, trFb) =>
         (some e, [WCall.apiFetch title, WCall.searchCall title] ++ trFb)
       | (none, trFb) =>
         match wp_sr_stage ora url with
         | (some e, trSr) =>
           (some e, [WCall.apiFetch title, WCall.searchCall title]
             ++ trFb ++ trSr)
         | (none, trSr) =>
           (ora.scrape url, [WCall.apiFetch title, WCall.searchCall title]
             ++ trFb ++ trSr ++ [WCall.scrapeCall url])) := by
    unfold get_wikipedia_extract
    rw [ht]
    dsimp only
    rw [hnf]
  have hfbshape := wp_fb_stage_trace_shape ora url title
  have hsrshape := wp_sr_stage_trace_shape ora url
  refine ⟨?_, ?_, ?_, ?_⟩
  · rw [hrepr]
    rcases hfbs : wp_fb_stage ora url title with ⟨_ | e, trFb⟩
    · rcases hsrs : wp_sr_stage ora url with ⟨_ | e, trSr⟩ <;> simp
    · simp
  · intro fb fbt e hs hfbne hwt hfound
    have hstage : wp_fb_stage ora url title = (some e, [WCall.apiFetch fbt]) := by
      unfold wp_fb_stage
      rw [hs]
      dsimp only
      rw [if_pos hfbne, hwt]
      dsimp only
      rw [hfound]
    rw [hrepr, hstage]
    rfl
  · intro hmem
    rw [hrepr] at hmem
    rcases hfbs : wp_fb_stage ora url title with ⟨fbres, trFb⟩
    rw [hfbs] at hmem hfbshape
    dsimp only at hmem hfbshape
    cases fbres with
    | some e =>
      exfalso
      dsimp only at hmem
      rcases hfbshape with h0 | ⟨t, h0⟩ <;> rw [h0] at hmem <;> simp at hmem
    | none =>
      exact wp_fb_stage_none ora url title (by rw [hfbs])
  · intro hmem
    rw [hrepr] at hmem
    rcases hfbs : wp_fb_stage ora url title with ⟨fbres, trFb⟩
    rw [hfbs] at hmem hfbshape
    dsimp only at hmem hfbshape
    cases fbres with
    | some e =>
      exfalso
      dsimp only at hmem
      rcases hfbshape with h0 | ⟨t, h0⟩ <;> rw [h0] at hmem <;> simp at hmem
    | none =>
      rcases hsrs : wp_sr_stage ora url with ⟨srres, trSr⟩
      rw [hsrs] at hmem hsrshape
      dsimp only at hmem hsrshape
      cases srres with
      | some e =>
        exfalso
        dsimp only at hmem
        rcases hsrshape with h0 | ⟨t, h0⟩ <;> rw [h0] at hmem <;>
          rcases hfbshape with h1 | ⟨t1, h1⟩ <;> rw [h1] at hmem <;>
          simp at hmem
      | none =>
        refine ⟨wp_fb_stage_none ora url title (by rw [hfbs]),
          wp_sr_stage_none ora url (by rw [hsrs]), ?_⟩
        rw [hrepr, hfbs, hsrs]

/-- Witness for C4's amended claim, at the concrete oracle of the
counterexample: the trace starts with the fetch and the search call, and
the successful search retry ends the ladder. -/
theorem get_wikipedia_extract_order_amended_witness :
    (get_wikipedia_extract ora_fb_success url_T).2.take 2
      = [WCall.apiFetch "T", WCall.searchCall "T"] ∧
    get_wikipedia_extract ora_fb_success url_T
      = (some "fbtext",
         [.apiFetch "T", .searchCall "T", .apiFetch "FB"]) :=
  ⟨(get_wikipedia_extract_order_amended ora_fb_success url_T "T" rfl rfl).1,
   (get_wikipedia_extract_order_amended ora_fb_success url_T "T" rfl rfl).2.1
     "https://de.wikipedia.org/wiki/FB" "FB" "fbtext" rfl (by decide) rfl rfl⟩

/-- The URL-determination step's trace is empty or a single opensearch
call. -/
theorem determine_url_trace_shape (ora : LinkOracle) (name : String)
    (llmUrl : Option String) :
    (determine_url ora name llmUrl).2 = [] ∨
    (determine_url ora name llmUrl).2 = [Call.searchFallback name] := by
  unfold determine_url
  rcases llmUrl with _ | u
  · exact Or.inr rfl
  · dsimp only
    by_cases hv : ora.validUrl u = true
    · rw [if_pos hv]
      exact Or.inl rfl
    · rw [if_neg hv]
      exact Or.inr rfl

/-- The extract-resolution step's trace takes one of four shapes, none
of which involves downstream-store calls. -/
theorem resolve_extract_trace_shape (ora : LinkOracle) (name url : String) :
    (resolve_extract ora name url).2.2.2 = [Call.extractFetch url] ∨
    (∃ u2, (resolve_extract ora name url).2.2.2
      = [Call.extractFetch url, Call.redirectCheck url,
         Call.extractFetch u2]) ∨
    (∃ u2, (resolve_extract ora name url).2.2.2
      = [Call.extractFetch url, Call.redirectCheck url,
         Call.extractFetch u2, Call.searchFallback name]) ∨
    (∃ u2 u3, (resolve_extract ora name url).2.2.2
      = [Call.extractFetch url, Call.redirectCheck url,
         Call.extractFetch u2, Call.searchFallback name,
         Call.extractFetch u3]) := by
  unfold resolve_extract
  rcases ora.extract url with _ | e1
  · dsimp only
    rcases ora.extract
        (if (ora.redirect url).1 ≠ url then (ora.redirect url).1 else url)
      with _ | e2
    · dsimp only
      rcases ora.fallbackUrl with _ | fb
      · dsimp only
        exact Or.inr (Or.inr (Or.inl ⟨_, rfl⟩))
      · dsimp only
        by_cases hfb : fb
            ≠ (if (ora.redirect url).1 ≠ url then (ora.redirect url).1 else url)
        · rw [if_pos hfb]
          exact Or.inr (Or.inr (Or.inr ⟨_, fb, rfl⟩))
        · rw [if_neg hfb]
          exact Or.inr (Or.inr (Or.inl ⟨_, rfl⟩))
    · dsimp only
      exact Or.inr (Or.inl ⟨_, rfl⟩)
  · exact Or.inl rfl

/-- Every call of `get_wikipedia_details` returns the empty mapping:
each section's `title_plain` reference raises before its request, and
the error is swallowed. -/
theorem get_wikipedia_details_empty_all (ora : DetailsOracle) (url : String) :
    get_wikipedia_details ora url = [] := by
  unfold get_wikipedia_details
  rcases wiki_title url with _ | t
  · rfl
  · rfl

/-- The additional-details field is never set, because
`get_wikipedia_details` always returns the empty (falsy) mapping. -/
theorem det_stage_none (cfg : LinkConfig) (ora : LinkOracle) (url1 : String)
    (extOpt : Option String) : (det_stage cfg ora url1 extOpt).1 = none := by
  unfold det_stage
  rw [get_wikipedia_details_empty_all]
  split <;> simp

/-- C6.  For every oracle and URL, `get_wikipedia_details` returns the
empty mapping — each of its three sections references the undefined name
`title_plain` while building its request parameters, and the resulting
`NameError` is swallowed by the section's handler — and consequently
`link_entities` (which sets `wikipedia_details` only on a non-empty,
hence truthy, result) never adds the `wikipedia_details` enrichment to
any entity. -/
theorem wikipedia_details_never_added :
    (∀ (ora : DetailsOracle) (url : String),
      get_wikipedia_details ora url = []) ∧
    (∀ (cfg : LinkConfig) (ora : LinkOracle) (name : String)
        (llmUrl : Option String) (ent : LinkedEntity),
      (link_one_entity cfg ora name llmUrl).1 = some ent →
      ent.wikipedia_details = none) := by
  refine ⟨get_wikipedia_details_empty_all, ?_⟩
  intro cfg ora name llmUrl ent h
  unfold link_one_entity at h
  rcases hdet : determine_url ora name llmUrl with ⟨uopt, tr0⟩
  rw [hdet] at h
  cases uopt with
  | none => exact absurd h (by simp)
  | some url0 =>
    dsimp only at h
    rcases hres : resolve_extract ora name url0 with ⟨url1, topt, eopt, tr1⟩
    rw [hres] at h
    dsimp only at h
    have hent : ent.wikipedia_details = (det_stage cfg ora url1 eopt).1 := by
      rw [← Option.some.inj h]
    rw [hent, det_stage_none]

/-- Witness for C6: the details mapping is empty at a concrete URL even
for an oracle whose sections would all find content, and a concretely
linked entity carries no `wikipedia_details` field. -/
theorem wikipedia_details_never_added_witness :
    get_wikipedia_details details_ora_full "https://de.wikipedia.org/wiki/E"
      = [] ∧
    ent_with_extract.wikipedia_details = none :=
  ⟨wikipedia_details_never_added.1 details_ora_full
      "https://de.wikipedia.org/wiki/E",
   wikipedia_details_never_added.2 cfg_details ora_with_extract "E"
      (some "https://de.wikipedia.org/wiki/E") ent_with_extract rfl⟩

/-- The category stage's trace: empty exactly when no extract was
obtained. -/
theorem cat_stage_trace (ora : LinkOracle) (url1 : String)
    (extOpt : Option String) :
    ((cat_stage ora url1 extOpt).2 = [] ∧ extOpt = none) ∨
    ((cat_stage ora url1 extOpt).2 = [Call.categoriesFetch url1] ∧
      ∃ e, extOpt = some e) := by
  unfold cat_stage
  rcases extOpt with _ | e
  · exact Or.inl ⟨rfl, rfl⟩
  · exact Or.inr ⟨rfl, e, rfl⟩

/-- The details stage's trace: empty or a single details fetch. -/
theorem det_stage_trace (cfg : LinkConfig) (ora : LinkOracle) (url1 : String)
    (extOpt : Option String) :
    (det_stage cfg ora url1 extOpt).2 = [] ∨
    (det_stage cfg ora url1 extOpt).2 = [Call.detailsFetch url1] := by
  unfold det_stage
  split
  · exact Or.inr rfl
  · exact Or.inl rfl

/-- The Wikidata stage performs the identifier lookup whenever the flag
is set. -/
theorem wd_stage_trace_pos (cfg : LinkConfig) (ora : LinkOracle)
    (url1 : String) (h : cfg.useWikidata = true) :
    Call.wikidataIdFetch url1 ∈ (wd_stage cfg ora url1).2.2 := by
  unfold wd_stage
  rw [if_pos h]
  rcases ora.wikidataId url1 with _ | qid <;> simp

/-- The Wikidata stage is silent when the flag is unset. -/
theorem wd_stage_trace_neg (cfg : LinkConfig) (ora : LinkOracle)
    (url1 : String) (h : cfg.useWikidata = false) :
    (wd_stage cfg ora url1).2.2 = [] := by
  unfold wd_stage
  rw [h]
  simp

/-- The shapes the Wikidata stage's trace can take. -/
theorem wd_stage_trace (cfg : LinkConfig) (ora : LinkOracle) (url1 : String) :
    (wd_stage cfg ora url1).2.2 = [] ∨
    (wd_stage cfg ora url1).2.2 = [Call.wikidataIdFetch url1] ∨
    ∃ q, (wd_stage cfg ora url1).2.2
      = [Call.wikidataIdFetch url1, Call.wikidataDetailsFetch q] := by
  unfold wd_stage
  split
  · rcases ora.wikidataId url1 with _ | qid
    · exact Or.inr (Or.inl rfl)
    · exact Or.inr (Or.inr ⟨qid, rfl⟩)
  · exact Or.inl rfl

/-- The DBpedia stage performs its lookup whenever the flag is set. -/
theorem db_stage_trace_pos (cfg : LinkConfig) (ora : LinkOracle)
    (url1 : String) (h : cfg.useDbpedia = true) :
    (db_stage cfg ora url1).2 = [Call.dbpediaFetch url1] := by
  unfold db_stage
  rw [if_pos h]

/-- The shapes the DBpedia stage's trace can take. -/
theorem db_stage_trace (cfg : LinkConfig) (ora : LinkOracle) (url1 : String) :
    (db_stage cfg ora url1).2 = [] ∨
    (db_stage cfg ora url1).2 = [Call.dbpediaFetch url1] := by
  unfold db_stage
  split
  · exact Or.inr rfl
  · exact Or.inl rfl

/-- C3 counterexample.  With both downstream stores enabled and an
entity whose every extract attempt fails, `link_entities` still performs
the Wikidata lookup (no extract was obtained) and still performs the
DBpedia lookup (the Wikidata lookup missed) — the claimed strict
dependency chain does not hold. -/
theorem link_entities_gating_counterexample :
    Call.wikidataIdFetch "https://de.wikipedia.org/wiki/E"
      ∈ (link_one_entity cfg_both_stores ora_no_extract "E"
          (some "https://de.wikipedia.org/wiki/E")).2 ∧
    Call.dbpediaFetch "https://de.wikipedia.org/wiki/E"
      ∈ (link_one_entity cfg_both_stores ora_no_extract "E"
          (some "https://de.wikipedia.org/wiki/E")).2 ∧
    (link_one_entity cfg_both_stores ora_no_extract "E"
        (some "https://de.wikipedia.org/wiki/E")).1 = some ent_no_extract ∧
    ent_no_extract.wikipedia_extract = none ∧
    ent_no_extract.wikidata_id = none := by
  refine ⟨by decide, by decide, rfl, rfl, rfl⟩

/-- C3 amended.  For a linked entity, the Wikidata lookup is performed
exactly when a Wikipedia URL was determined and `USE_WIKIDATA` is set —
regardless of whether an extract was obtained — and the DBpedia lookup
is performed exactly when a URL was determined and `USE_DBPEDIA` is set
— regardless of whether the Wikidata enrichment succeeded.  Only the
category fetch is gated on a non-empty extract. -/
theorem link_entities_gating_amended (cfg : LinkConfig) (ora : LinkOracle)
    (name : String) (llmUrl : Option String) :
    ((link_one_entity cfg ora name llmUrl).1.isSome →
      ((cfg.useWikidata = true) ↔
        ∃ u, Call.wikidataIdFetch u
          ∈ (link_one_entity cfg ora name llmUrl).2) ∧
      ((cfg.useDbpedia = true) ↔
        ∃ u, Call.dbpediaFetch u
          ∈ (link_one_entity cfg ora name llmUrl).2)) ∧
    (∀ u, Call.categoriesFetch u ∈ (link_one_entity cfg ora name llmUrl).2 →
      ∃ ent e, (link_one_entity cfg ora name llmUrl).1 = some ent ∧
        ent.wikipedia_extract = some e) := by
  have hdshape := determine_url_trace_shape ora name llmUrl
  rcases hdet : determine_url ora name llmUrl with ⟨uopt, tr0⟩
  rw [hdet] at hdshape
  dsimp only at hdshape
  unfold link_one_entity
  rw [hdet]
  cases uopt with
  | none =>
    dsimp only
    refine ⟨fun hs => absurd hs (by simp), ?_⟩
    intro u hu
    rcases hdshape with h0 | h0 <;> rw [h0] at hu <;> simp at hu
  | some url0 =>
    have hrshape := resolve_extract_trace_shape ora name url0
    rcases hres : resolve_extract ora name url0 with ⟨url1, topt, eopt, tr1⟩
    rw [hres] at hrshape
    dsimp only at hrshape
    dsimp only
    rw [hres]
    dsimp only
    refine ⟨fun _ => ⟨⟨?_, ?_⟩, ⟨?_, ?_⟩⟩, ?_⟩
    · intro huw
      exact ⟨url1, List.mem_append_left _
        (List.mem_append_right _ (wd_stage_trace_pos cfg ora url1 huw))⟩
    · rintro ⟨u, hu⟩
      cases hbw : cfg.useWikidata with
      | true => rfl
      | false =>
        exfalso
        rw [wd_stage_trace_neg cfg ora url1 hbw] at hu
        rcases hdshape with h0 | h0 <;> rw [h0] at hu <;>
          rcases hrshape with h1 | ⟨u2, h1⟩ | ⟨u2, h1⟩ | ⟨u2, u3, h1⟩ <;>
            rw [h1] at hu <;>
          rcases cat_stage_trace ora url1 eopt with ⟨hc, -⟩ | ⟨hc, -⟩ <;>
            rw [hc] at hu <;>
          rcases det_stage_trace cfg ora url1 eopt with hd | hd <;>
            rw [hd] at hu <;>
          rcases db_stage_trace cfg ora url1 with hb | hb <;>
            rw [hb] at hu <;>
          simp at hu
    · intro hdb
      refine ⟨url1, List.mem_append_right _ ?_⟩
      rw [db_stage_trace_pos cfg ora url1 hdb]
      simp
    · rintro ⟨u, hu⟩
      cases hbd : cfg.useDbpedia with
      | true => rfl
      | false =>
        exfalso
        have hbnil : (db_stage cfg ora url1).2 = [] := by
          unfold db_stage
          rw [hbd]
          simp
        rw [hbnil] at hu
        rcases hdshape with h0 | h0 <;> rw [h0] at hu <;>
          rcases hrshape with h1 | ⟨u2, h1⟩ | ⟨u2, h1⟩ | ⟨u2, u3, h1⟩ <;>
            rw [h1] at hu <;>
          rcases cat_stage_trace ora url1 eopt with ⟨hc, -⟩ | ⟨hc, -⟩ <;>
            rw [hc] at hu <;>
          rcases det_stage_trace cfg ora url1 eopt with hd | hd <;>
            rw [hd] at hu <;>
          rcases wd_stage_trace cfg ora url1 with hw | hw | ⟨q, hw⟩ <;>
            rw [hw] at hu <;>
          simp at hu
    · intro u hu
      rcases cat_stage_trace ora url1 eopt with ⟨hc, -⟩ | ⟨hc, e, heopt⟩
      · exfalso
        rw [hc] at hu
        rcases hdshape with h0 | h0 <;> rw [h0] at hu <;>
          rcases hrshape with h1 | ⟨u2, h1⟩ | ⟨u2, h1⟩ | ⟨u2, u3, h1⟩ <;>
            rw [h1] at hu <;>
          rcases det_stage_trace cfg ora url1 eopt with hd | hd <;>
            rw [hd] at hu <;>
          rcases wd_stage_trace cfg ora url1 with hw | hw | ⟨q, hw⟩ <;>
            rw [hw] at hu <;>
          rcases db_stage_trace cfg ora url1 with hb | hb <;>
            rw [hb] at hu <;>
          simp at hu
      · exact ⟨_, e, rfl, heopt⟩

/-- Witness for C3's amended claim: at the counterexample's oracle (URL
determined, no extract, both flags set) both downstream lookups occur in
the trace. -/
theorem link_entities_gating_amended_witness :
    (∃ u, Call.wikidataIdFetch u
      ∈ (link_one_entity cfg_both_stores ora_no_extract "E"
          (some "https://de.wikipedia.org/wiki/E")).2) ∧
    (∃ u, Call.dbpediaFetch u
      ∈ (link_one_entity cfg_both_stores ora_no_extract "E"
          (some "https://de.wikipedia.org/wiki/E")).2) :=
  ⟨((link_entities_gating_amended cfg_both_stores ora_no_extract "E"
      (some "https://de.wikipedia.org/wiki/E")).1 (by decide)).1.mp rfl,
   ((link_entities_gating_amended cfg_both_stores ora_no_extract "E"
      (some "https://de.wikipedia.org/wiki/E")).1 (by decide)).2.mp rfl⟩

end EntityExtractor
